import Mathlib

/-!
Verification of the data-analysis notebook (`data_analysis.ipynb`).

The notebook's own logic is glue: build a SQL string by token replacement,
write a CSV, mutate a schema document, reset a workspace directory, persist
the schema.  We embed that glue shallowly: strings are `List Char`, Python's
`str.replace` is `pyReplace`, and the external library objects the notebook
manipulates (schema document, filesystem, delimited-file writer) are modelled
explicitly where noted.
-/

set_option maxRecDepth 100000

namespace DataAnalysis

/-- `leadsWith pat xs` is true when `pat` occurs at the very start of `xs`
(the prefix test used by the replacement scan). -/
def leadsWith [BEq α] : List α → List α → Bool
  | [], _ => true
  | _ :: _, [] => false
  | a :: as, b :: bs => a == b && leadsWith as bs

/-- `hasSub pat xs` is true when `pat` occurs as a contiguous substring of `xs`. -/
def hasSub [BEq α] (pat : List α) : List α → Bool
  | [] => pat.isEmpty
  | x :: xs => leadsWith pat (x :: xs) || hasSub pat xs

/-- One left-to-right scan of Python's `str.replace`: at each position, if the
pattern starts here, emit the replacement and skip past the pattern; otherwise
emit the character and move on.  `fuel` bounds the scan (it is always called
with `fuel = xs.length`, which suffices because every step consumes at least
one character). -/
def replaceGo (pat rep : List Char) : Nat → List Char → List Char
  | _, [] => []
  | 0, xs => xs
  | fuel + 1, x :: xs =>
    if leadsWith pat (x :: xs) then
      rep ++ replaceGo pat rep fuel (xs.drop (pat.length - 1))
    else
      x :: replaceGo pat rep fuel xs

/-- Python's `s.replace(pat, rep)` for a non-empty pattern: replace every
non-overlapping occurrence of `pat` in `s` by `rep`, scanning left to right,
without rescanning the inserted replacement text. -/
def pyReplace (xs pat rep : List Char) : List Char :=
  replaceGo pat rep xs.length xs

theorem leadsWith_append [BEq α] [LawfulBEq α] (l t : List α) :
    leadsWith l (l ++ t) = true := by
  induction l with
  | nil => rfl
  | cons a as ih => simp [leadsWith, ih]

theorem replaceGo_fuel (pat rep : List Char) :
    ∀ f g xs, xs.length ≤ f → xs.length ≤ g →
      replaceGo pat rep f xs = replaceGo pat rep g xs := by
  intro f
  induction f with
  | zero =>
    intro g xs hf hg
    have : xs = [] := List.length_eq_zero.mp (Nat.le_zero.mp hf)
    subst this
    cases g <;> rfl
  | succ f ih =>
    intro g xs hf hg
    cases xs with
    | nil => cases g <;> rfl
    | cons x xs =>
      cases g with
      | zero => simp at hg
      | succ g =>
        simp only [replaceGo]
        by_cases h : leadsWith pat (x :: xs) = true
        · rw [h]
          simp only [if_true]
          have hd : (xs.drop (pat.length - 1)).length ≤ xs.length := by
            simp [List.length_drop]
          have hf1 : xs.length ≤ f := by simpa using hf
          have hg1 : xs.length ≤ g := by simpa using hg
          rw [ih g (xs.drop (pat.length - 1)) (le_trans hd hf1) (le_trans hd hg1)]
        · rw [Bool.not_eq_true] at h
          rw [h]
          simp only [Bool.false_eq_true, if_false]
          have hf1 : xs.length ≤ f := by simpa using hf
          have hg1 : xs.length ≤ g := by simpa using hg
          rw [ih g xs hf1 hg1]

theorem pyReplace_nil (pat rep : List Char) : pyReplace [] pat rep = [] := rfl

theorem pyReplace_cons_neg {pat : List Char} {x : Char} {xs : List Char}
    (rep : List Char) (h : leadsWith pat (x :: xs) = false) :
    pyReplace (x :: xs) pat rep = x :: pyReplace xs pat rep := by
  unfold pyReplace
  simp only [List.length_cons, replaceGo, h, Bool.false_eq_true, if_false]

theorem pyReplace_head (p : Char) (pt xs rep : List Char) :
    pyReplace ((p :: pt) ++ xs) (p :: pt) rep = rep ++ pyReplace xs (p :: pt) rep := by
  unfold pyReplace
  show replaceGo (p :: pt) rep (p :: (pt ++ xs)).length (p :: (pt ++ xs)) = _
  simp only [List.length_cons, replaceGo]
  rw [show leadsWith (p :: pt) (p :: (pt ++ xs)) = leadsWith (p :: pt) ((p :: pt) ++ xs) from rfl,
    leadsWith_append]
  simp only [if_true]
  congr 1
  have hdrop : (pt ++ xs).drop (pt.length + 1 - 1) = xs := by
    simp only [Nat.add_sub_cancel]
    exact List.drop_left pt xs
  rw [hdrop]
  exact replaceGo_fuel _ _ _ _ _ (by simp) (le_refl _)

/-- No occurrence of `pat` starts anywhere in `xs` (occurrences may not
extend past the end of `xs`). -/
def noMatch (pat : List Char) : List Char → Bool
  | [] => true
  | x :: xs => !leadsWith pat (x :: xs) && noMatch pat xs

/-- No occurrence of `pat` starts at a position of `xs`, where the text
continues with `rest` after `xs` (so occurrences may extend into `rest`). -/
def noStartIn (pat : List Char) : List Char → List Char → Bool
  | [], _ => true
  | x :: xs, rest => !leadsWith pat (x :: (xs ++ rest)) && noStartIn pat xs rest

theorem pyReplace_no_match {pat : List Char} (rep : List Char) :
    ∀ xs, noMatch pat xs = true → pyReplace xs pat rep = xs := by
  intro xs
  induction xs with
  | nil => intro _; rfl
  | cons x xs ih =>
    intro h
    simp only [noMatch, Bool.and_eq_true, Bool.not_eq_true'] at h
    rw [pyReplace_cons_neg rep h.1, ih h.2]

theorem pyReplace_skip (pat rep : List Char) :
    ∀ A rest, noStartIn pat A rest = true →
      pyReplace (A ++ rest) pat rep = A ++ pyReplace rest pat rep := by
  intro A
  induction A with
  | nil => intro rest _; rfl
  | cons a A ih =>
    intro rest hA
    simp only [noStartIn, Bool.and_eq_true, Bool.not_eq_true'] at hA
    simp only [List.cons_append]
    rw [pyReplace_cons_neg rep hA.1, ih rest hA.2]

theorem pyReplace_single (p : Char) (pt rep A B : List Char)
    (hA : noStartIn (p :: pt) A ((p :: pt) ++ B) = true)
    (hB : noMatch (p :: pt) B = true) :
    pyReplace (A ++ (p :: pt) ++ B) (p :: pt) rep = A ++ rep ++ B := by
  rw [List.append_assoc, pyReplace_skip _ _ A _ hA, pyReplace_head,
    pyReplace_no_match rep B hB, List.append_assoc]

theorem pyReplace_skip_at (pt rep : List Char) :
    ∀ xs ys, (∀ c ∈ xs, c ≠ '@') →
      pyReplace (xs ++ ys) ('@' :: pt) rep = xs ++ pyReplace ys ('@' :: pt) rep := by
  intro xs
  induction xs with
  | nil => intro ys _; rfl
  | cons x xs ih =>
    intro ys h
    have hx : x ≠ '@' := h x (List.mem_cons_self x xs)
    have hstep : leadsWith ('@' :: pt) (x :: (xs ++ ys)) = false := by
      simp only [leadsWith, Bool.and_eq_false_iff]
      left
      exact beq_eq_false_iff_ne.mpr (Ne.symm hx)
    simp only [List.cons_append]
    rw [pyReplace_cons_neg rep hstep, ih ys fun c hc => h c (List.mem_cons_of_mem x hc)]

theorem pyReplace_id_of_no_at (pt rep : List Char) (xs : List Char)
    (h : ∀ c ∈ xs, c ≠ '@') : pyReplace xs ('@' :: pt) rep = xs := by
  have := pyReplace_skip_at pt rep xs [] h
  simpa [pyReplace_nil] using this

/-- The decimal digits of `n`, most significant first (empty for `n = 0`);
`fuel` bounds the recursion and any `fuel ≥ n` is enough. -/
def natChars : Nat → Nat → List Char
  | 0, _ => []
  | fuel + 1, n =>
    if n = 0 then [] else natChars fuel (n / 10) ++ [Char.ofNat (48 + n % 10)]

/-- Decimal rendering of a natural number, as Python's `str` renders it. -/
def decRender (n : Nat) : List Char :=
  if n = 0 then [Char.ofNat 48] else natChars n n

/-- Decimal rendering of an integer, as Python's `str` renders it
(a leading minus sign for negative values). -/
def intRender (a : Int) : List Char :=
  if a < 0 then Char.ofNat 45 :: decRender a.natAbs else decRender a.natAbs

theorem natChars_mem :
    ∀ fuel n c, c ∈ natChars fuel n → ∃ m, m < 10 ∧ c = Char.ofNat (48 + m) := by
  intro fuel
  induction fuel with
  | zero => intro n c hc; simp [natChars] at hc
  | succ fuel ih =>
    intro n c hc
    simp only [natChars] at hc
    by_cases hn : n = 0
    · simp [hn] at hc
    · rw [if_neg hn] at hc
      rcases List.mem_append.mp hc with h | h
      · exact ih _ _ h
      · refine ⟨n % 10, Nat.mod_lt _ (by norm_num), ?_⟩
        simpa using h

theorem decRender_no_at (n : Nat) : ∀ c ∈ decRender n, c ≠ '@' := by
  intro c hc
  unfold decRender at hc
  by_cases hn : n = 0
  · rw [if_pos hn] at hc
    simp at hc
    subst hc
    decide
  · rw [if_neg hn] at hc
    obtain ⟨m, hm, rfl⟩ := natChars_mem n n c hc
    clear hc
    revert m
    decide

theorem intRender_no_at (a : Int) : ∀ c ∈ intRender a, c ≠ '@' := by
  intro c hc
  unfold intRender at hc
  by_cases ha : a < 0
  · rw [if_pos ha] at hc
    rcases List.mem_cons.mp hc with h | h
    · subst h; decide
    · exact decRender_no_at _ c h
  · rw [if_neg ha] at hc
    exact decRender_no_at _ c hc

/-! ### The SQL extraction template and its token substitution

`SOURCE_QUERY` is the notebook's fixed SQL template; the notebook builds the
final query with `SOURCE_QUERY.replace('@age', str(age)).replace('@dataset_name', d)`.
-/

/-- The single-quote character used by the SQL string literal in the template. -/
def sqQuote : Char := Char.ofNat 39

/-- Text of the template up to (not including) the `@dataset_name` token:
the whole `SELECT` clause and the `FROM` keyword. -/
def sqlSelectClause : List Char :=
  ("\n    SELECT \n        age,\n        workclass,\n        fnlwgt,\n        education,\n        education_num,\n        marital_status,\n        occupation,\n        relationship,\n        race,\n        gender,\n        capital_gain,\n        capital_loss,\n        hours_per_week,\n        native_country,\n        CASE WHEN income_bracket = ").toList
  ++ [sqQuote] ++ (" <=50K").toList ++ [sqQuote]
  ++ (" THEN 0 ELSE 1 END AS income_bracket\n    FROM \n        ").toList

/-- Text of the template between the `@dataset_name` token and the `@age`
token: the table suffix and the `WHERE` clause up to the age comparison. -/
def sqlMid : List Char := (".census\n    WHERE\n        age <= ").toList

/-- Text of the template after the `@age` token. -/
def sqlEnd : List Char := "\n".toList

/-- The `@age` placeholder token. -/
def atAgeTok : List Char := "@age".toList

/-- The `@dataset_name` placeholder token. -/
def atDatasetTok : List Char := "@dataset_name".toList

/-- The notebook's fixed SQL extraction template `SOURCE_QUERY`, as the exact
character sequence of the Python triple-quoted string. -/
def SOURCE_QUERY : List Char :=
  sqlSelectClause ++ atDatasetTok ++ sqlMid ++ atAgeTok ++ sqlEnd

/-- The query-templating operation of the notebook: replace `@age` with the
decimal rendering of `a`, then `@dataset_name` with `d`, in `SOURCE_QUERY`. -/
def generatedSql (a : Int) (d : List Char) : List Char :=
  pyReplace (pyReplace SOURCE_QUERY atAgeTok (intRender a)) atDatasetTok d

theorem atAgeTok_cons : atAgeTok = '@' :: "age".toList := by decide

theorem atDatasetTok_cons : atDatasetTok = '@' :: "dataset_name".toList := by decide

/-- Substituting the `@age` token leaves the template's other text unchanged:
the template contains exactly one occurrence of `@age`. -/
theorem replace_age_eq (r : List Char) :
    pyReplace SOURCE_QUERY atAgeTok r
      = (sqlSelectClause ++ atDatasetTok ++ sqlMid) ++ r ++ sqlEnd := by
  have h1 : SOURCE_QUERY
      = (sqlSelectClause ++ atDatasetTok ++ sqlMid) ++ atAgeTok ++ sqlEnd := rfl
  rw [h1, atAgeTok_cons]
  exact pyReplace_single _ _ r _ _ (by decide) (by decide)

/-- Substituting the `@dataset_name` token after the `@age` substitution:
no `@` remains anywhere else, so exactly the one occurrence is replaced. -/
theorem replace_dataset_eq (a : Int) (d : List Char) :
    pyReplace ((sqlSelectClause ++ atDatasetTok ++ sqlMid) ++ intRender a ++ sqlEnd)
        atDatasetTok d
      = sqlSelectClause ++ d ++ sqlMid ++ intRender a ++ sqlEnd := by
  have hshape :
      (sqlSelectClause ++ atDatasetTok ++ sqlMid) ++ intRender a ++ sqlEnd
        = sqlSelectClause ++ (atDatasetTok ++ (sqlMid ++ (intRender a ++ sqlEnd))) := by
    simp [List.append_assoc]
  rw [hshape, atDatasetTok_cons]
  rw [pyReplace_skip_at _ _ _ _ (by decide)]
  rw [pyReplace_head]
  have hrest : pyReplace (sqlMid ++ (intRender a ++ sqlEnd))
      ('@' :: "dataset_name".toList) d = sqlMid ++ (intRender a ++ sqlEnd) := by
    apply pyReplace_id_of_no_at
    intro c hc
    rcases List.mem_append.mp hc with h | h
    · exact (by decide : ∀ x ∈ sqlMid, x ≠ '@') c h
    · rcases List.mem_append.mp h with h2 | h2
      · exact intRender_no_at a c h2
      · exact (by decide : ∀ x ∈ sqlEnd, x ≠ '@') c h2
  rw [hrest]
  simp [List.append_assoc]

/-- Closed form of the generated SQL: the fixed template text with `d` in
place of `@dataset_name` and the decimal rendering of `a` in place of `@age`,
and no other character altered. -/
theorem generatedSql_eq (a : Int) (d : List Char) :
    generatedSql a d = sqlSelectClause ++ d ++ sqlMid ++ intRender a ++ sqlEnd := by
  unfold generatedSql
  rw [replace_age_eq, replace_dataset_eq]

theorem hasSub_of_split [BEq α] [LawfulBEq α] (n : List α) :
    ∀ u v, hasSub n (u ++ (n ++ v)) = true := by
  intro u
  induction u with
  | nil =>
    intro v
    simp only [List.nil_append]
    cases h : n ++ v with
    | nil =>
      rcases List.append_eq_nil.mp h with ⟨hn, _⟩
      subst hn
      rfl
    | cons x xs =>
      show hasSub n (x :: xs) = true
      simp only [hasSub, Bool.or_eq_true]
      left
      rw [← h]
      exact leadsWith_append n v
  | cons c u ih =>
    intro v
    simp only [List.cons_append, hasSub, Bool.or_eq_true]
    right
    exact ih v

/-- The first part of `sqlMid`: the table-name suffix. -/
def censusSuffix : List Char := (".census").toList

/-- The `WHERE` clause text between `.census` and the age comparison. -/
def whereText : List Char := ("\n    WHERE\n        ").toList

/-- The age-comparison text immediately preceding the substituted age. -/
def agePhrase : List Char := ("age <= ").toList

theorem sqlMid_split : sqlMid = censusSuffix ++ (whereText ++ agePhrase) := by decide

/-- C1: for every integer age threshold `a` and dataset name `d`, the
generated SQL contains the literal substring `age <= {a}` and the fully
qualified table reference `{d}.census`. -/
theorem generatedSql_contains_age_and_table (a : Int) (d : List Char) :
    hasSub (agePhrase ++ intRender a) (generatedSql a d) = true ∧
    hasSub (d ++ censusSuffix) (generatedSql a d) = true := by
  constructor
  · have h : generatedSql a d
        = (sqlSelectClause ++ d ++ censusSuffix ++ whereText)
          ++ ((agePhrase ++ intRender a) ++ sqlEnd) := by
      rw [generatedSql_eq, sqlMid_split]
      simp [List.append_assoc]
    rw [h]
    exact hasSub_of_split _ _ _
  · have h : generatedSql a d
        = sqlSelectClause
          ++ ((d ++ censusSuffix) ++ (whereText ++ (agePhrase ++ (intRender a ++ sqlEnd)))) := by
      rw [generatedSql_eq, sqlMid_split]
      simp [List.append_assoc]
    rw [h]
    exact hasSub_of_split _ _ _

/-- The full SQL text of the notebook's concrete instantiation: the template
with `@age` replaced by `100` and `@dataset_name` by `sample_dataset`, and
every other character exactly as in `SOURCE_QUERY`. -/
def sampleFinalSql : List Char :=
  ("\n    SELECT \n        age,\n        workclass,\n        fnlwgt,\n        education,\n        education_num,\n        marital_status,\n        occupation,\n        relationship,\n        race,\n        gender,\n        capital_gain,\n        capital_loss,\n        hours_per_week,\n        native_country,\n        CASE WHEN income_bracket = ").toList
  ++ [sqQuote] ++ (" <=50K").toList ++ [sqQuote]
  ++ (" THEN 0 ELSE 1 END AS income_bracket\n    FROM \n        sample_dataset.census\n    WHERE\n        age <= 100\n").toList

/-- C3: at `age = 100` and `dataset_name = sample_dataset`, the templating
operation yields exactly the template text with the two tokens substituted
and no other character altered. -/
theorem generatedSql_sample_instantiation :
    generatedSql 100 (("sample_dataset").toList) = sampleFinalSql := by
  rw [generatedSql_eq]
  decide

/-! ### The SELECT clause and the label-recode CASE expression -/

/-- Splits a list at every occurrence of the separator `c` (the separator is
not kept; `n` separators yield `n + 1` chunks). -/
def splitCh (c : Char) : List Char → List (List Char)
  | [] => [[]]
  | x :: xs =>
    match splitCh c xs with
    | [] => [[x]]
    | h :: t => if x == c then [] :: h :: t else (x :: h) :: t

/-- Whitespace as it appears inside the SQL template. -/
def isWsChar (c : Char) : Bool := c == ' ' || c == '\n'

/-- Removes leading and trailing whitespace. -/
def trimWs (s : List Char) : List Char :=
  ((s.dropWhile isWsChar).reverse.dropWhile isWsChar).reverse

/-- The output column name of one SELECT item: the word after `AS` when the
item carries an alias, and the trimmed item text itself otherwise. -/
def outputName (item : List Char) : List Char :=
  let t := trimWs item
  let ws := (splitCh ' ' t).filter (fun w => !w.isEmpty)
  if ws.contains (("AS").toList) then ws.getLastD [] else t

/-- The output column names of a comma-separated SELECT item list. -/
def selectOutputColumns (body : List Char) : List (List Char) :=
  (splitCh ',' body).map outputName

/-- Template text of the `SELECT` keyword line. -/
def sqlHead : List Char := ("\n    SELECT \n").toList

/-- Template text of the SELECT item list (between the `SELECT` keyword and
the `FROM` keyword). -/
def selBody : List Char :=
  ("        age,\n        workclass,\n        fnlwgt,\n        education,\n        education_num,\n        marital_status,\n        occupation,\n        relationship,\n        race,\n        gender,\n        capital_gain,\n        capital_loss,\n        hours_per_week,\n        native_country,\n        CASE WHEN income_bracket = ").toList
  ++ [sqQuote] ++ (" <=50K").toList ++ [sqQuote]
  ++ (" THEN 0 ELSE 1 END AS income_bracket").toList

/-- Template text of the `FROM` keyword up to the substituted dataset name. -/
def sqlFromKw : List Char := ("\n    FROM \n        ").toList

/-- The fifteen column names selected by the extraction query. -/
def censusColumns : List (List Char) :=
  [("age").toList, ("workclass").toList, ("fnlwgt").toList, ("education").toList,
   ("education_num").toList, ("marital_status").toList, ("occupation").toList,
   ("relationship").toList, ("race").toList, ("gender").toList,
   ("capital_gain").toList, ("capital_loss").toList, ("hours_per_week").toList,
   ("native_country").toList, ("income_bracket").toList]

/-- A SQL value: a string or an integer. -/
inductive SqlVal where
  | s : List Char → SqlVal
  | n : Nat → SqlVal
deriving DecidableEq

/-- The fragment of SQL expressions used by the extraction query. -/
inductive SqlExpr where
  | col : List Char → SqlExpr
  | litS : List Char → SqlExpr
  | litN : Nat → SqlExpr
  | caseWhenEq : SqlExpr → SqlExpr → SqlExpr → SqlExpr → SqlExpr

/-- Evaluation of a SQL expression on one row (a map from column name to
value); `caseWhenEq l r t e` is `CASE WHEN l = r THEN t ELSE e END`. -/
def evalSql (row : List Char → SqlVal) : SqlExpr → SqlVal
  | .col nm => row nm
  | .litS v => .s v
  | .litN v => .n v
  | .caseWhenEq l r t e =>
    if evalSql row l = evalSql row r then evalSql row t else evalSql row e

/-- The label-recode expression of `SOURCE_QUERY`:
`CASE WHEN income_bracket = ' <=50K' THEN 0 ELSE 1 END`. -/
def incomeBracketRecode : SqlExpr :=
  .caseWhenEq (.col (("income_bracket").toList)) (.litS ((" <=50K").toList))
    (.litN 0) (.litN 1)

theorem sqlSelectClause_split : sqlSelectClause = sqlHead ++ selBody ++ sqlFromKw := by
  decide

/-- C2: the generated SQL always starts with the fixed SELECT clause, whose
comma-separated items name exactly the fifteen census columns, and the
label-recode CASE expression evaluates to 0 or 1 on every row. -/
theorem generatedSql_fixed_columns_binary_label :
    (∀ (a : Int) (d : List Char), ∃ rest,
        generatedSql a d = (sqlHead ++ selBody ++ sqlFromKw) ++ rest) ∧
    selectOutputColumns selBody = censusColumns ∧
    (∀ row, evalSql row incomeBracketRecode = .n 0 ∨
        evalSql row incomeBracketRecode = .n 1) := by
  refine ⟨?_, by decide, ?_⟩
  · intro a d
    refine ⟨d ++ (sqlMid ++ (intRender a ++ sqlEnd)), ?_⟩
    rw [generatedSql_eq, sqlSelectClause_split]
    simp [List.append_assoc]
  · intro row
    simp only [incomeBracketRecode, evalSql]
    split
    · exact Or.inl rfl
    · exact Or.inr rfl

/-- C8: the recode maps a row to 0 exactly when its `income_bracket` value is
the string ` <=50K` with the leading space; any other value — in particular
the unpadded `<=50K` — maps to 1. -/
theorem income_recode_padded_string_only :
    (∀ row : List Char → SqlVal,
        evalSql row incomeBracketRecode = .n 0 ↔
          row (("income_bracket").toList) = .s ((" <=50K").toList)) ∧
    (∀ row : List Char → SqlVal,
        row (("income_bracket").toList) = .s (("<=50K").toList) →
          evalSql row incomeBracketRecode = .n 1) := by
  constructor
  · intro row
    simp only [incomeBracketRecode, evalSql]
    split
    next h => simpa using h
    next h => simpa using h
  · intro row h
    simp only [incomeBracketRecode, evalSql, h]
    decide

/-- A concrete row whose `income_bracket` value is the unpadded `<=50K`. -/
def rowUnpadded : List Char → SqlVal :=
  fun nm => if nm = ("income_bracket").toList then .s (("<=50K").toList) else .s []

theorem income_recode_padded_string_only_witness :
    evalSql rowUnpadded incomeBracketRecode = .n 1 :=
  income_recode_padded_string_only.2 rowUnpadded (by simp [rowUnpadded])

/-! ### Text-format plumbing for the schema file

Escaped strings, separator-joined token lists, and decimal rendering with
their inverses.  These support the model of `tfdv.write_schema_text` /
`tfdv.load_schema_text`.
-/

/-- Escapes one character so that escaped text contains no space, newline or
bare backslash. -/
def escChar (c : Char) : List Char :=
  if c = '\\' then ['\\', '\\']
  else if c = ' ' then ['\\', 's']
  else if c = '\n' then ['\\', 'n']
  else [c]

/-- Escapes a string for embedding in a space-separated, line-based file. -/
def escape : List Char → List Char
  | [] => []
  | c :: r => escChar c ++ escape r

/-- Inverse of `escape` (lenient on ill-formed input). -/
def unescape : List Char → List Char
  | [] => []
  | [c] => [c]
  | c :: d :: r =>
    if c = '\\' then
      (if d = 's' then ' ' else if d = 'n' then '\n' else d) :: unescape r
    else c :: unescape (d :: r)

theorem unescape_cons2 (c d : Char) (r : List Char) :
    unescape (c :: d :: r)
      = if c = '\\' then
          (if d = 's' then ' ' else if d = 'n' then '\n' else d) :: unescape r
        else c :: unescape (d :: r) := rfl

theorem escape_eq_nil {r : List Char} (h : escape r = []) : r = [] := by
  cases r with
  | nil => rfl
  | cons a r =>
    exfalso
    rw [show escape (a :: r) = escChar a ++ escape r from rfl] at h
    rcases List.append_eq_nil.mp h with ⟨h1, _⟩
    unfold escChar at h1
    by_cases ha : a = '\\'
    · rw [if_pos ha] at h1; exact List.cons_ne_nil _ _ h1
    · by_cases hb : a = ' '
      · rw [if_neg ha, if_pos hb] at h1; exact List.cons_ne_nil _ _ h1
      · by_cases hc : a = '\n'
        · rw [if_neg ha, if_neg hb, if_pos hc] at h1; exact List.cons_ne_nil _ _ h1
        · rw [if_neg ha, if_neg hb, if_neg hc] at h1; exact List.cons_ne_nil _ _ h1

theorem unescape_escape : ∀ s, unescape (escape s) = s := by
  intro s
  induction s with
  | nil => rfl
  | cons c r ih =>
    show unescape (escChar c ++ escape r) = c :: r
    by_cases h1 : c = '\\'
    · subst h1
      rw [show escChar '\\' = ['\\', '\\'] from by decide]
      show unescape ('\\' :: '\\' :: escape r) = '\\' :: r
      rw [unescape_cons2, if_pos rfl, if_neg (by decide), if_neg (by decide), ih]
    · by_cases h2 : c = ' '
      · subst h2
        rw [show escChar ' ' = ['\\', 's'] from by decide]
        show unescape ('\\' :: 's' :: escape r) = ' ' :: r
        rw [unescape_cons2, if_pos rfl, if_pos rfl, ih]
      · by_cases h3 : c = '\n'
        · subst h3
          rw [show escChar '\n' = ['\\', 'n'] from by decide]
          show unescape ('\\' :: 'n' :: escape r) = '\n' :: r
          rw [unescape_cons2, if_pos rfl, if_neg (by decide), if_pos rfl, ih]
        · rw [show escChar c = [c] from by
            unfold escChar; rw [if_neg h1, if_neg h2, if_neg h3]]
          cases he : escape r with
          | nil =>
            have hr : r = [] := escape_eq_nil he
            subst hr
            rfl
          | cons d t =>
            show unescape (c :: d :: t) = c :: r
            rw [unescape_cons2, if_neg h1, ← he, ih]

theorem escape_mem : ∀ s c, c ∈ escape s → c ≠ ' ' ∧ c ≠ '\n' := by
  intro s
  induction s with
  | nil => intro c hc; simp [escape] at hc
  | cons a r ih =>
    intro c hc
    rw [show escape (a :: r) = escChar a ++ escape r from rfl] at hc
    rcases List.mem_append.mp hc with h | h
    · unfold escChar at h
      by_cases h1 : a = '\\'
      · rw [if_pos h1] at h
        simp at h
        subst h
        exact ⟨by decide, by decide⟩
      · by_cases h2 : a = ' '
        · rw [if_neg h1, if_pos h2] at h
          simp at h
          rcases h with h | h <;> (subst h; exact ⟨by decide, by decide⟩)
        · by_cases h3 : a = '\n'
          · rw [if_neg h1, if_neg h2, if_pos h3] at h
            simp at h
            rcases h with h | h <;> (subst h; exact ⟨by decide, by decide⟩)
          · rw [if_neg h1, if_neg h2, if_neg h3] at h
            simp at h
            subst h
            exact ⟨h2, h3⟩
    · exact ih c h

/-- Joins chunks with a single separator character between them. -/
def joinCh (c : Char) : List (List Char) → List Char
  | [] => []
  | [p] => p
  | p :: q :: ps => p ++ c :: joinCh c (q :: ps)

theorem splitCh_ne_nil (c : Char) : ∀ s, splitCh c s ≠ [] := by
  intro s
  cases s with
  | nil => simp [splitCh]
  | cons x xs =>
    rw [show splitCh c (x :: xs)
        = match splitCh c xs with
          | [] => [[x]]
          | h :: t => if x == c then [] :: h :: t else (x :: h) :: t from rfl]
    cases splitCh c xs with
    | nil => simp
    | cons h t =>
      by_cases hx : x == c
      · simp [hx]
      · simp [hx]

theorem splitCh_no_sep (c : Char) :
    ∀ s, (∀ x ∈ s, x ≠ c) → splitCh c s = [s] := by
  intro s
  induction s with
  | nil => intro _; rfl
  | cons x xs ih =>
    intro h
    have hxs := ih fun y hy => h y (List.mem_cons_of_mem x hy)
    rw [show splitCh c (x :: xs)
        = match splitCh c xs with
          | [] => [[x]]
          | h :: t => if x == c then [] :: h :: t else (x :: h) :: t from rfl]
    rw [hxs]
    have hx : (x == c) = false :=
      beq_eq_false_iff_ne.mpr (h x (List.mem_cons_self x xs))
    simp [hx]

theorem splitCh_sep_append (c : Char) (rest : List Char) :
    ∀ p, (∀ x ∈ p, x ≠ c) → splitCh c (p ++ c :: rest) = p :: splitCh c rest := by
  intro p
  induction p with
  | nil =>
    intro _
    simp only [List.nil_append]
    obtain ⟨h, t, hht⟩ := List.exists_cons_of_ne_nil (splitCh_ne_nil c rest)
    rw [show splitCh c (c :: rest)
        = match splitCh c rest with
          | [] => [[c]]
          | h :: t => if c == c then [] :: h :: t else (c :: h) :: t from rfl]
    rw [hht]
    simp
  | cons x p ih =>
    intro h
    have hp := ih fun y hy => h y (List.mem_cons_of_mem x hy)
    simp only [List.cons_append]
    rw [show splitCh c (x :: (p ++ c :: rest))
        = match splitCh c (p ++ c :: rest) with
          | [] => [[x]]
          | h :: t => if x == c then [] :: h :: t else (x :: h) :: t from rfl]
    rw [hp]
    have hx : (x == c) = false :=
      beq_eq_false_iff_ne.mpr (h x (List.mem_cons_self x p))
    simp [hx]

theorem splitCh_joinCh (c : Char) :
    ∀ parts, parts ≠ [] → (∀ p ∈ parts, ∀ x ∈ p, x ≠ c) →
      splitCh c (joinCh c parts) = parts := by
  intro parts
  induction parts with
  | nil => intro h; exact absurd rfl h
  | cons p ps ih =>
    intro _ hall
    cases ps with
    | nil =>
      rw [show joinCh c [p] = p from rfl]
      exact splitCh_no_sep c p (hall p (List.mem_cons_self p []))
    | cons q ps =>
      rw [show joinCh c (p :: q :: ps) = p ++ c :: joinCh c (q :: ps) from rfl]
      rw [splitCh_sep_append c _ p (hall p (List.mem_cons_self p _))]
      rw [ih (by simp) fun r hr x hx => hall r (List.mem_cons_of_mem p hr) x hx]

/-- Reads back a decimal numeral (fold over the digits). -/
def decValAux (acc : Nat) : List Char → Nat
  | [] => acc
  | c :: r => decValAux (acc * 10 + (c.toNat - 48)) r

/-- The numeric value of a decimal numeral token. -/
def decVal (s : List Char) : Nat := decValAux 0 s

theorem decValAux_cons (acc : Nat) (c : Char) (r : List Char) :
    decValAux acc (c :: r) = decValAux (acc * 10 + (c.toNat - 48)) r := rfl

theorem decValAux_append (ys : List Char) :
    ∀ xs acc, decValAux acc (xs ++ ys) = decValAux (decValAux acc xs) ys := by
  intro xs
  induction xs with
  | nil => intro acc; rfl
  | cons x xs ih =>
    intro acc
    rw [List.cons_append, decValAux_cons, decValAux_cons]
    exact ih _

theorem decValAux_natChars :
    ∀ f n acc, n ≤ f →
      decValAux acc (natChars f n) = acc * 10 ^ (natChars f n).length + n := by
  intro f
  induction f with
  | zero =>
    intro n acc h
    have : n = 0 := Nat.le_zero.mp h
    subst this
    rw [show natChars 0 0 = [] from rfl]
    rw [show decValAux acc [] = acc from rfl]
    simp
  | succ f ih =>
    intro n acc h
    by_cases hn : n = 0
    · subst hn
      rw [show natChars (f + 1) 0 = [] from rfl]
      rw [show decValAux acc [] = acc from rfl]
      simp
    · rw [show natChars (f + 1) n
          = natChars f (n / 10) ++ [Char.ofNat (48 + n % 10)] from by
        rw [natChars]; rw [if_neg hn]]
      rw [decValAux_append]
      have hstep : n / 10 ≤ f := by
        have h1 : n / 10 < n := Nat.div_lt_self (Nat.pos_of_ne_zero hn) (by norm_num)
        omega
      rw [ih (n / 10) acc hstep]
      have hdig : (Char.ofNat (48 + n % 10)).toNat - 48 = n % 10 := by
        have hall : ∀ m, m < 10 → (Char.ofNat (48 + m)).toNat - 48 = m := by decide
        exact hall _ (Nat.mod_lt _ (by norm_num))
      rw [show decValAux (acc * 10 ^ (natChars f (n / 10)).length + n / 10)
            [Char.ofNat (48 + n % 10)]
          = (acc * 10 ^ (natChars f (n / 10)).length + n / 10) * 10
            + ((Char.ofNat (48 + n % 10)).toNat - 48) from rfl]
      rw [hdig]
      simp only [List.length_append, List.length_singleton]
      rw [pow_succ]
      have := Nat.div_add_mod n 10
      ring_nf
      omega

theorem decVal_decRender (n : Nat) : decVal (decRender n) = n := by
  by_cases hn : n = 0
  · subst hn; decide
  · rw [show decRender n = natChars n n from by rw [decRender]; rw [if_neg hn]]
    unfold decVal
    rw [decValAux_natChars n n 0 (le_refl n)]
    simp

/-- The decimal characters of `decRender` (digits only). -/
theorem decRender_digit (n : Nat) :
    ∀ c ∈ decRender n, ∃ m, m < 10 ∧ c = Char.ofNat (48 + m) := by
  intro c hc
  unfold decRender at hc
  by_cases hn : n = 0
  · rw [if_pos hn] at hc
    simp at hc
    exact ⟨0, by norm_num, hc⟩
  · rw [if_neg hn] at hc
    exact natChars_mem n n c hc

theorem decRender_mem (n : Nat) : ∀ c ∈ decRender n, c ≠ ' ' ∧ c ≠ '\n' := by
  intro c hc
  obtain ⟨m, hm, rfl⟩ := decRender_digit n c hc
  clear hc
  revert m
  decide

/-! ### The schema document

Modelled from the spec: the schema is a library-defined structured document
describing, per feature, domain constraints (allowed categorical values,
minimum domain-mass fraction) and environment membership; the notebook
mutates its fields in place and serializes it to a text file.  The document
type and its text serialization live in the external statistics/validation
library, so they are modelled here; the fraction `min_domain_mass` is kept
as an exact numerator/denominator pair.
-/

/-- One feature of the schema document (the fields the notebook touches). -/
structure SchemaFeature where
  name : List Char
  min_domain_mass_num : Nat
  min_domain_mass_den : Nat
  not_in_environment : List (List Char)
deriving DecidableEq

/-- One named string domain of the schema document. -/
structure StringDomain where
  name : List Char
  value : List (List Char)
deriving DecidableEq

/-- The schema document. -/
structure Schema where
  feature : List SchemaFeature
  string_domain : List StringDomain
  default_environment : List (List Char)
deriving DecidableEq

/-- The schema document with no features, domains or environments. -/
def emptySchema : Schema :=
  { feature := [], string_domain := [], default_environment := [] }

/-- The serialized tokens of one feature record. -/
def featureLineTokens (f : SchemaFeature) : List (List Char) :=
  ("feature").toList :: escape f.name :: decRender f.min_domain_mass_num ::
    decRender f.min_domain_mass_den :: f.not_in_environment.map escape

/-- The serialized tokens of one string-domain record. -/
def domainLineTokens (sd : StringDomain) : List (List Char) :=
  ("string_domain").toList :: escape sd.name :: sd.value.map escape

/-- The serialized tokens of one default-environment record. -/
def envLineTokens (e : List Char) : List (List Char) :=
  [("default_environment").toList, escape e]

/-- The lines of the serialized schema file. -/
def schemaLines (s : Schema) : List (List Char) :=
  s.feature.map (fun f => joinCh ' ' (featureLineTokens f))
    ++ s.string_domain.map (fun sd => joinCh ' ' (domainLineTokens sd))
    ++ s.default_environment.map (fun e => joinCh ' ' (envLineTokens e))

/-- Modelled from the spec: `tfdv.write_schema_text` — serialize the schema
document to a human-readable structured text file, one record per line with
space-separated escaped fields. -/
def write_schema_text (s : Schema) : List Char :=
  joinCh '\n' (schemaLines s)

/-- Parses the tokens of a feature record. -/
def readFeatureTokens : List (List Char) → Option SchemaFeature
  | nm :: mn :: md :: envs =>
    some { name := unescape nm, min_domain_mass_num := decVal mn,
           min_domain_mass_den := decVal md,
           not_in_environment := envs.map unescape }
  | _ => none

/-- Parses the tokens of a string-domain record. -/
def readDomainTokens : List (List Char) → Option StringDomain
  | nm :: vals => some { name := unescape nm, value := vals.map unescape }
  | _ => none

/-- Adds one tokenized line of the schema file to the document being rebuilt
(unrecognized lines are skipped). -/
def applyTokens (s : Schema) : List (List Char) → Schema
  | ['f', 'e', 'a', 't', 'u', 'r', 'e'] :: rest =>
    (match readFeatureTokens rest with
     | some f => { s with feature := s.feature ++ [f] }
     | none => s)
  | ['s', 't', 'r', 'i', 'n', 'g', '_', 'd', 'o', 'm', 'a', 'i', 'n'] :: rest =>
    (match readDomainTokens rest with
     | some sd => { s with string_domain := s.string_domain ++ [sd] }
     | none => s)
  | ['d', 'e', 'f', 'a', 'u', 'l', 't', '_', 'e', 'n', 'v', 'i', 'r', 'o',
     'n', 'm', 'e', 'n', 't'] :: [e] =>
    { s with default_environment := s.default_environment ++ [unescape e] }
  | _ => s

/-- Adds one line of the schema file to the document being rebuilt. -/
def applyLine (s : Schema) (line : List Char) : Schema :=
  applyTokens s (splitCh ' ' line)

/-- Modelled from the spec: `tfdv.load_schema_text` — parse the text file
written by `write_schema_text` back into a schema document. -/
def load_schema_text (t : List Char) : Schema :=
  (splitCh '\n' t).foldl applyLine emptySchema

theorem map_unescape_escape : ∀ l : List (List Char), (l.map escape).map unescape = l := by
  intro l
  induction l with
  | nil => rfl
  | cons a l ih =>
    simp only [List.map_cons]
    rw [unescape_escape, ih]

theorem featureLineTokens_ok (f : SchemaFeature) :
    featureLineTokens f ≠ [] ∧
      (∀ p ∈ featureLineTokens f, ∀ x ∈ p, x ≠ ' ') := by
  constructor
  · simp [featureLineTokens]
  · intro p hp x hx
    simp only [featureLineTokens, List.mem_cons] at hp
    rcases hp with rfl | rfl | rfl | rfl | hp
    · revert hx; revert x; decide
    · exact (escape_mem _ x hx).1
    · exact (decRender_mem _ x hx).1
    · exact (decRender_mem _ x hx).1
    · obtain ⟨e, _, rfl⟩ := List.mem_map.mp hp
      exact (escape_mem _ x hx).1

theorem domainLineTokens_ok (sd : StringDomain) :
    domainLineTokens sd ≠ [] ∧
      (∀ p ∈ domainLineTokens sd, ∀ x ∈ p, x ≠ ' ') := by
  constructor
  · simp [domainLineTokens]
  · intro p hp x hx
    simp only [domainLineTokens, List.mem_cons] at hp
    rcases hp with rfl | rfl | hp
    · revert hx; revert x; decide
    · exact (escape_mem _ x hx).1
    · obtain ⟨e, _, rfl⟩ := List.mem_map.mp hp
      exact (escape_mem _ x hx).1

theorem envLineTokens_ok (e : List Char) :
    envLineTokens e ≠ [] ∧
      (∀ p ∈ envLineTokens e, ∀ x ∈ p, x ≠ ' ') := by
  constructor
  · simp [envLineTokens]
  · intro p hp x hx
    simp only [envLineTokens, List.mem_cons] at hp
    rcases hp with rfl | hp
    · revert hx; revert x; decide
    · rcases hp with rfl | hp
      · exact (escape_mem _ x hx).1
      · simp at hp

theorem applyLine_feature (s : Schema) (f : SchemaFeature) :
    applyLine s (joinCh ' ' (featureLineTokens f))
      = { s with feature := s.feature ++ [f] } := by
  unfold applyLine
  rw [splitCh_joinCh ' ' _ (featureLineTokens_ok f).1 (featureLineTokens_ok f).2]
  rw [show applyTokens s (featureLineTokens f)
      = { s with feature := s.feature
          ++ [{ name := unescape (escape f.name),
                min_domain_mass_num := decVal (decRender f.min_domain_mass_num),
                min_domain_mass_den := decVal (decRender f.min_domain_mass_den),
                not_in_environment := (f.not_in_environment.map escape).map unescape }] }
      from rfl]
  rw [unescape_escape, decVal_decRender, decVal_decRender, map_unescape_escape]

theorem applyLine_domain (s : Schema) (sd : StringDomain) :
    applyLine s (joinCh ' ' (domainLineTokens sd))
      = { s with string_domain := s.string_domain ++ [sd] } := by
  unfold applyLine
  rw [splitCh_joinCh ' ' _ (domainLineTokens_ok sd).1 (domainLineTokens_ok sd).2]
  rw [show applyTokens s (domainLineTokens sd)
      = { s with string_domain := s.string_domain
          ++ [{ name := unescape (escape sd.name),
                value := (sd.value.map escape).map unescape }] } from rfl]
  rw [unescape_escape, map_unescape_escape]

theorem applyLine_env (s : Schema) (e : List Char) :
    applyLine s (joinCh ' ' (envLineTokens e))
      = { s with default_environment := s.default_environment ++ [e] } := by
  unfold applyLine
  rw [splitCh_joinCh ' ' _ (envLineTokens_ok e).1 (envLineTokens_ok e).2]
  rw [show applyTokens s (envLineTokens e)
      = { s with default_environment := s.default_environment
          ++ [unescape (escape e)] } from rfl]
  rw [unescape_escape]

theorem foldl_feature_lines (L : List (List Char)) :
    ∀ (fs : List SchemaFeature) (s : Schema),
      (fs.map (fun f => joinCh ' ' (featureLineTokens f)) ++ L).foldl applyLine s
        = L.foldl applyLine { s with feature := s.feature ++ fs } := by
  intro fs
  induction fs with
  | nil =>
    intro s
    simp only [List.map_nil, List.nil_append, List.append_nil]
  | cons f fs ih =>
    intro s
    simp only [List.map_cons, List.cons_append, List.foldl_cons]
    rw [applyLine_feature, ih]
    simp [List.append_assoc]

theorem foldl_domain_lines (L : List (List Char)) :
    ∀ (ds : List StringDomain) (s : Schema),
      (ds.map (fun sd => joinCh ' ' (domainLineTokens sd)) ++ L).foldl applyLine s
        = L.foldl applyLine { s with string_domain := s.string_domain ++ ds } := by
  intro ds
  induction ds with
  | nil =>
    intro s
    simp only [List.map_nil, List.nil_append, List.append_nil]
  | cons sd ds ih =>
    intro s
    simp only [List.map_cons, List.cons_append, List.foldl_cons]
    rw [applyLine_domain, ih]
    simp [List.append_assoc]

theorem foldl_env_lines :
    ∀ (es : List (List Char)) (s : Schema),
      (es.map (fun e => joinCh ' ' (envLineTokens e))).foldl applyLine s
        = { s with default_environment := s.default_environment ++ es } := by
  intro es
  induction es with
  | nil =>
    intro s
    simp only [List.map_nil, List.foldl_nil, List.append_nil]
  | cons e es ih =>
    intro s
    simp only [List.map_cons, List.foldl_cons]
    rw [applyLine_env, ih]
    simp [List.append_assoc]

theorem schemaLines_chars (s : Schema) :
    ∀ l ∈ schemaLines s, ∀ x ∈ l, x ≠ '\n' := by
  have mem_join : ∀ (toks : List (List Char)),
      (∀ p ∈ toks, ∀ y ∈ p, y ≠ '\n') → ∀ y ∈ joinCh ' ' toks, y ≠ '\n' := by
    intro toks
    induction toks with
    | nil => intro _ y hy; simp [joinCh] at hy
    | cons p ps ih =>
      intro hall y hy
      cases ps with
      | nil => exact hall p (List.mem_cons_self p _) y hy
      | cons q qs =>
        rw [show joinCh ' ' (p :: q :: qs) = p ++ ' ' :: joinCh ' ' (q :: qs) from rfl] at hy
        rcases List.mem_append.mp hy with h | h
        · exact hall p (List.mem_cons_self p _) y h
        · rcases List.mem_cons.mp h with h | h
          · subst h; decide
          · exact ih (fun r hr => hall r (List.mem_cons_of_mem p hr)) y h
  intro l hl x hx
  unfold schemaLines at hl
  rcases List.mem_append.mp hl with hl1 | hl1
  · rcases List.mem_append.mp hl1 with hl2 | hl2
    · obtain ⟨f, _, rfl⟩ := List.mem_map.mp hl2
      refine mem_join _ ?_ x hx
      intro p hp y hy
      simp only [featureLineTokens, List.mem_cons] at hp
      rcases hp with rfl | rfl | rfl | rfl | hp
      · revert hy; revert y; decide
      · exact (escape_mem _ y hy).2
      · exact (decRender_mem _ y hy).2
      · exact (decRender_mem _ y hy).2
      · obtain ⟨e, _, rfl⟩ := List.mem_map.mp hp
        exact (escape_mem _ y hy).2
    · obtain ⟨sd, _, rfl⟩ := List.mem_map.mp hl2
      refine mem_join _ ?_ x hx
      intro p hp y hy
      simp only [domainLineTokens, List.mem_cons] at hp
      rcases hp with rfl | rfl | hp
      · revert hy; revert y; decide
      · exact (escape_mem _ y hy).2
      · obtain ⟨e, _, rfl⟩ := List.mem_map.mp hp
        exact (escape_mem _ y hy).2
  · obtain ⟨e, _, rfl⟩ := List.mem_map.mp hl1
    refine mem_join _ ?_ x hx
    intro p hp y hy
    simp only [envLineTokens, List.mem_cons] at hp
    rcases hp with rfl | hp
    · revert hy; revert y; decide
    · rcases hp with rfl | hp
      · exact (escape_mem _ y hy).2
      · simp at hp

/-- C4: writing any schema document with `write_schema_text` and reloading
the written text with `load_schema_text` yields the document back,
field for field. -/
theorem schema_text_round_trip (s : Schema) :
    load_schema_text (write_schema_text s) = s := by
  unfold load_schema_text write_schema_text
  by_cases hempty : schemaLines s = []
  · rw [hempty]
    unfold schemaLines at hempty
    rcases List.append_eq_nil.mp hempty with ⟨h12, h3⟩
    rcases List.append_eq_nil.mp h12 with ⟨h1, h2⟩
    have hf : s.feature = [] := List.map_eq_nil_iff.mp h1
    have hd : s.string_domain = [] := List.map_eq_nil_iff.mp h2
    have he : s.default_environment = [] := List.map_eq_nil_iff.mp h3
    rw [show joinCh '\n' [] = [] from rfl]
    rw [show splitCh '\n' [] = [[]] from rfl]
    rw [show ([[]] : List (List Char)).foldl applyLine emptySchema
        = applyLine emptySchema [] from rfl]
    rw [show applyLine emptySchema [] = emptySchema from rfl]
    cases s
    simp_all [emptySchema]
  · rw [splitCh_joinCh '\n' _ hempty (schemaLines_chars s)]
    unfold schemaLines
    rw [List.append_assoc]
    rw [foldl_feature_lines _ s.feature emptySchema]
    rw [foldl_domain_lines _ s.string_domain _]
    rw [foldl_env_lines s.default_environment _]
    cases s
    simp [emptySchema]

/-! ### The schema-mutation step

The notebook's mutation cell: relax `occupation`'s `min_domain_mass` to 0.9,
append `Egypt` to the `native_country` domain, append the three environments,
and append `SERVING` to the label feature's `not_in_environment`.
`tfdv.get_feature` / `tfdv.get_domain` raise when the name is absent; that is
modelled with `Option`.
-/

/-- Replaces the first element satisfying `p` by its image under `g`. -/
def updateFirst (p : α → Bool) (g : α → α) : List α → List α
  | [] => []
  | x :: xs => if p x then g x :: xs else x :: updateFirst p g xs

def occupationName : List Char := ("occupation").toList
def nativeCountryName : List Char := ("native_country").toList
def incomeBracketName : List Char := ("income_bracket").toList
def egyptName : List Char := ("Egypt").toList
def trainingEnv : List Char := ("TRAINING").toList
def evaluationEnv : List Char := ("EVALUATION").toList
def servingEnv : List Char := ("SERVING").toList

/-- `tfdv.get_feature(schema, name)` (raises when absent, modelled as `none`). -/
def get_feature (s : Schema) (nm : List Char) : Option SchemaFeature :=
  s.feature.find? (fun f => f.name == nm)

/-- `tfdv.get_domain(schema, name)` (raises when absent, modelled as `none`). -/
def get_domain (s : Schema) (nm : List Char) : Option StringDomain :=
  s.string_domain.find? (fun d => d.name == nm)

/-- In-place mutation of the named feature. -/
def updateFeature (s : Schema) (nm : List Char) (g : SchemaFeature → SchemaFeature) : Schema :=
  { s with feature := updateFirst (fun f => f.name == nm) g s.feature }

/-- In-place mutation of the named string domain. -/
def updateDomain (s : Schema) (nm : List Char) (g : StringDomain → StringDomain) : Schema :=
  { s with string_domain := updateFirst (fun d => d.name == nm) g s.string_domain }

/-- `occupation.distribution_constraints.min_domain_mass = 0.9`. -/
def occMass (f : SchemaFeature) : SchemaFeature :=
  { f with min_domain_mass_num := 9, min_domain_mass_den := 10 }

/-- `native_country_domain.value.append('Egypt')`. -/
def addEgypt (d : StringDomain) : StringDomain :=
  { d with value := d.value ++ [egyptName] }

/-- The three `schema.default_environment.append(...)` statements. -/
def addEnvs (s : Schema) : Schema :=
  { s with default_environment := s.default_environment
      ++ [trainingEnv, evaluationEnv, servingEnv] }

/-- `...get_feature(schema, TARGET_FEATURE_NAME).not_in_environment.append('SERVING')`. -/
def addServingNotIn (f : SchemaFeature) : SchemaFeature :=
  { f with not_in_environment := f.not_in_environment ++ [servingEnv] }

/-- The whole schema-mutation cell, in the notebook's statement order. -/
def alterSchema (s : Schema) : Option Schema :=
  match get_feature s occupationName with
  | none => none
  | some _ =>
    match get_domain (updateFeature s occupationName occMass) nativeCountryName with
    | none => none
    | some _ =>
      match get_feature (addEnvs (updateDomain (updateFeature s occupationName occMass)
          nativeCountryName addEgypt)) incomeBracketName with
      | none => none
      | some _ =>
        some (updateFeature (addEnvs (updateDomain (updateFeature s occupationName occMass)
          nativeCountryName addEgypt)) incomeBracketName addServingNotIn)

theorem find?_updateFirst_self (p : α → Bool) (g : α → α)
    (hpg : ∀ x, p (g x) = p x) :
    ∀ l a, l.find? p = some a → (updateFirst p g l).find? p = some (g a) := by
  intro l
  induction l with
  | nil => intro a h; simp [List.find?] at h
  | cons x xs ih =>
    intro a h
    by_cases hx : p x = true
    · rw [List.find?_cons_of_pos _ hx] at h
      obtain rfl : x = a := Option.some.inj h
      rw [show updateFirst p g (x :: xs) = g x :: xs from by
        rw [updateFirst]; rw [if_pos hx]]
      exact List.find?_cons_of_pos _ (by rw [hpg]; exact hx)
    · have hx' : ¬ p x = true := hx
      rw [List.find?_cons_of_neg _ hx'] at h
      rw [show updateFirst p g (x :: xs) = x :: updateFirst p g xs from by
        rw [updateFirst]; rw [if_neg hx']]
      rw [List.find?_cons_of_neg _ hx']
      exact ih a h

theorem find?_updateFirst_other (p q : α → Bool) (g : α → α)
    (hpg : ∀ x, p (g x) = p x) (hdisj : ∀ x, q x = true → p x = false) :
    ∀ l, (updateFirst q g l).find? p = l.find? p := by
  intro l
  induction l with
  | nil => rfl
  | cons x xs ih =>
    by_cases hq : q x = true
    · have hpx : p x = false := hdisj x hq
      rw [show updateFirst q g (x :: xs) = g x :: xs from by
        rw [updateFirst]; rw [if_pos hq]]
      rw [List.find?_cons_of_neg _ (by simp [hpg x, hpx])]
      rw [List.find?_cons_of_neg _ (by simp [hpx])]
    · rw [show updateFirst q g (x :: xs) = x :: updateFirst q g xs from by
        rw [updateFirst]; rw [if_neg hq]]
      by_cases hpx : p x = true
      · rw [List.find?_cons_of_pos _ hpx, List.find?_cons_of_pos _ hpx]
      · rw [List.find?_cons_of_neg _ hpx, List.find?_cons_of_neg _ hpx, ih]

theorem alterSchema_elim {s t : Schema} (h : alterSchema s = some t) :
    ∃ focc d0 finc,
      get_feature s occupationName = some focc ∧
      get_domain (updateFeature s occupationName occMass) nativeCountryName = some d0 ∧
      get_feature (addEnvs (updateDomain (updateFeature s occupationName occMass)
        nativeCountryName addEgypt)) incomeBracketName = some finc ∧
      t = updateFeature (addEnvs (updateDomain (updateFeature s occupationName occMass)
        nativeCountryName addEgypt)) incomeBracketName addServingNotIn := by
  unfold alterSchema at h
  split at h
  next heq => exact absurd h (by simp)
  next focc heq =>
    split at h
    next heq2 => exact absurd h (by simp)
    next d0 heq2 =>
      split at h
      next heq3 => exact absurd h (by simp)
      next finc heq3 =>
        exact ⟨focc, d0, finc, heq, heq2, heq3, (Option.some.inj h).symm⟩

theorem alterSchema_env {s t : Schema} (h : alterSchema s = some t) :
    t.default_environment = s.default_environment
      ++ [trainingEnv, evaluationEnv, servingEnv] := by
  obtain ⟨_, _, _, _, _, _, rfl⟩ := alterSchema_elim h
  rfl

/-- C6: after the schema-mutation step succeeds, the `occupation` feature's
`min_domain_mass` equals 0.9 (= 9/10), the `native_country` domain contains
`Egypt`, the three environments are registered, and the `income_bracket`
feature is marked absent from `SERVING`. -/
theorem alterSchema_constraints (s t : Schema) (h : alterSchema s = some t) :
    (∃ f, get_feature t occupationName = some f ∧
        f.min_domain_mass_num = 9 ∧ f.min_domain_mass_den = 10) ∧
    (∃ d0, get_domain t nativeCountryName = some d0 ∧ egyptName ∈ d0.value) ∧
    trainingEnv ∈ t.default_environment ∧
    evaluationEnv ∈ t.default_environment ∧
    servingEnv ∈ t.default_environment ∧
    (∃ f, get_feature t incomeBracketName = some f ∧
        servingEnv ∈ f.not_in_environment) := by
  have henv := alterSchema_env h
  obtain ⟨focc, d0, finc, hocc, hdom, hinc, rfl⟩ := alterSchema_elim h
  have hdisj : ∀ x : SchemaFeature,
      (x.name == incomeBracketName) = true → (x.name == occupationName) = false := by
    intro x hx
    have hx' : x.name = incomeBracketName := by simpa using hx
    rw [hx']
    decide
  have hocc' : s.feature.find? (fun f => f.name == occupationName) = some focc := hocc
  have hdom' : s.string_domain.find? (fun d => d.name == nativeCountryName) = some d0 := hdom
  have hinc' : (updateFirst (fun f => f.name == occupationName) occMass s.feature).find?
      (fun f => f.name == incomeBracketName) = some finc := hinc
  refine ⟨⟨occMass focc, ?_, rfl, rfl⟩, ⟨addEgypt d0, ?_, ?_⟩, ?_, ?_, ?_,
    ⟨addServingNotIn finc, ?_, ?_⟩⟩
  · show (updateFirst (fun f => f.name == incomeBracketName) addServingNotIn
        (updateFirst (fun f => f.name == occupationName) occMass s.feature)).find?
        (fun f => f.name == occupationName) = some (occMass focc)
    rw [find?_updateFirst_other (fun f => f.name == occupationName)
      (fun f => f.name == incomeBracketName) addServingNotIn (fun x => rfl) hdisj]
    exact find?_updateFirst_self (fun f => f.name == occupationName) occMass
      (fun x => rfl) _ _ hocc'
  · show (updateFirst (fun d => d.name == nativeCountryName) addEgypt
        s.string_domain).find? (fun d => d.name == nativeCountryName)
        = some (addEgypt d0)
    exact find?_updateFirst_self (fun d => d.name == nativeCountryName) addEgypt
      (fun x => rfl) _ _ hdom'
  · show egyptName ∈ d0.value ++ [egyptName]
    simp
  · rw [henv]
    exact List.mem_append_right _ (by decide)
  · rw [henv]
    exact List.mem_append_right _ (by decide)
  · rw [henv]
    exact List.mem_append_right _ (by decide)
  · show (updateFirst (fun f => f.name == incomeBracketName) addServingNotIn
        (updateFirst (fun f => f.name == occupationName) occMass s.feature)).find?
        (fun f => f.name == incomeBracketName) = some (addServingNotIn finc)
    exact find?_updateFirst_self (fun f => f.name == incomeBracketName) addServingNotIn
      (fun x => rfl) _ _ hinc'
  · show servingEnv ∈ finc.not_in_environment ++ [servingEnv]
    simp

/-- C7: the environment registration is a faithful list append with no
duplicate detection: on a schema whose `default_environment` already contains
`SERVING`, the appends make `SERVING` occur (at least) twice â the count grows
by exactly one. -/
theorem alterSchema_duplicate_env (s t : Schema) (h : alterSchema s = some t)
    (hmem : servingEnv ∈ s.default_environment) :
    t.default_environment.count servingEnv
      = s.default_environment.count servingEnv + 1 ∧
    2 ≤ t.default_environment.count servingEnv := by
  have henv := alterSchema_env h
  rw [henv, List.count_append]
  have hone : List.count servingEnv [trainingEnv, evaluationEnv, servingEnv] = 1 := by
    decide
  rw [hone]
  have hpos : 0 < s.default_environment.count servingEnv :=
    List.count_pos_iff.mpr hmem
  exact ⟨rfl, by omega⟩

/-- A small schema document of the shape the notebook's inference step
produces: it has the `occupation` and `income_bracket` features and a
`native_country` domain. -/
def sampleSchema : Schema :=
  { feature := [
      { name := occupationName, min_domain_mass_num := 1, min_domain_mass_den := 1,
        not_in_environment := [] },
      { name := incomeBracketName, min_domain_mass_num := 1, min_domain_mass_den := 1,
        not_in_environment := [] } ],
    string_domain := [ { name := nativeCountryName, value := [] } ],
    default_environment := [] }

/-- The result of the mutation step on `sampleSchema`. -/
def sampleAltered : Schema :=
  { feature := [
      { name := occupationName, min_domain_mass_num := 9, min_domain_mass_den := 10,
        not_in_environment := [] },
      { name := incomeBracketName, min_domain_mass_num := 1, min_domain_mass_den := 1,
        not_in_environment := [servingEnv] } ],
    string_domain := [ { name := nativeCountryName, value := [egyptName] } ],
    default_environment := [trainingEnv, evaluationEnv, servingEnv] }

theorem alterSchema_constraints_witness :
    (∃ f, get_feature sampleAltered occupationName = some f ∧
        f.min_domain_mass_num = 9 ∧ f.min_domain_mass_den = 10) ∧
    (∃ d0, get_domain sampleAltered nativeCountryName = some d0 ∧ egyptName ∈ d0.value) ∧
    trainingEnv ∈ sampleAltered.default_environment ∧
    evaluationEnv ∈ sampleAltered.default_environment ∧
    servingEnv ∈ sampleAltered.default_environment ∧
    (∃ f, get_feature sampleAltered incomeBracketName = some f ∧
        servingEnv ∈ f.not_in_environment) :=
  alterSchema_constraints sampleSchema sampleAltered (by decide)

/-- Like `sampleSchema`, but with `SERVING` already registered. -/
def sampleSchemaServing : Schema :=
  { feature := [
      { name := occupationName, min_domain_mass_num := 1, min_domain_mass_den := 1,
        not_in_environment := [] },
      { name := incomeBracketName, min_domain_mass_num := 1, min_domain_mass_den := 1,
        not_in_environment := [] } ],
    string_domain := [ { name := nativeCountryName, value := [] } ],
    default_environment := [servingEnv] }

/-- The result of the mutation step on `sampleSchemaServing`. -/
def sampleAlteredServing : Schema :=
  { feature := [
      { name := occupationName, min_domain_mass_num := 9, min_domain_mass_den := 10,
        not_in_environment := [] },
      { name := incomeBracketName, min_domain_mass_num := 1, min_domain_mass_den := 1,
        not_in_environment := [servingEnv] } ],
    string_domain := [ { name := nativeCountryName, value := [egyptName] } ],
    default_environment := [servingEnv, trainingEnv, evaluationEnv, servingEnv] }

theorem alterSchema_duplicate_env_witness :
    sampleAlteredServing.default_environment.count servingEnv
      = sampleSchemaServing.default_environment.count servingEnv + 1 ∧
    2 ≤ sampleAlteredServing.default_environment.count servingEnv :=
  alterSchema_duplicate_env sampleSchemaServing sampleAlteredServing
    (by decide) (by decide)

/-! ### The workspace-setup step

The notebook's setup cell: if the workspace root exists, remove it
recursively; then create the workspace root and its `data` subdirectory.
The `tf.io.gfile` primitives are external, so the filesystem is modelled
from the spec as a list of (path, is-directory) entries; `gfile.mkdir` on an
existing path raises, modelled as `none`.
-/

def workspacePath : List (List Char) := [("workspace").toList]

def dataPath : List (List Char) := [("workspace").toList, ("data").toList]

/-- `tf.io.gfile.exists`. -/
def existsPath (fs : List (List (List Char) × Bool)) (p : List (List Char)) : Bool :=
  fs.any (fun e => e.1 == p)

/-- `tf.io.gfile.rmtree`: removes the path and everything under it. -/
def rmtree (fs : List (List (List Char) × Bool)) (p : List (List Char)) :
    List (List (List Char) × Bool) :=
  fs.filter (fun e => !leadsWith p e.1)

/-- `tf.io.gfile.mkdir`: creates a directory; raises if the path exists. -/
def mkdirFS (fs : List (List (List Char) × Bool)) (p : List (List Char)) :
    Option (List (List (List Char) × Bool)) :=
  if existsPath fs p then none else some (fs ++ [(p, true)])

/-- The workspace-setup cell: remove the workspace root if it exists, then
create the workspace root and its data subdirectory.  Returns the new
filesystem and whether the removal branch ran; `none` models a raised
filesystem error. -/
def setupWorkspace (fs : List (List (List Char) × Bool)) :
    Option (List (List (List Char) × Bool) × Bool) :=
  (mkdirFS (if existsPath fs workspacePath then rmtree fs workspacePath else fs)
      workspacePath).bind
    fun fs2 => (mkdirFS fs2 dataPath).map
      fun fs3 => (fs3, existsPath fs workspacePath)

theorem leadsWith_iff [BEq α] [LawfulBEq α] :
    ∀ (l t : List α), leadsWith l t = true ↔ ∃ u, t = l ++ u := by
  intro l
  induction l with
  | nil =>
    intro t
    simp [leadsWith]
  | cons a as ih =>
    intro t
    cases t with
    | nil => simp [leadsWith]
    | cons b bs =>
      simp only [leadsWith, Bool.and_eq_true, beq_iff_eq, ih bs]
      constructor
      · rintro ⟨rfl, u, rfl⟩
        exact ⟨u, rfl⟩
      · rintro ⟨u, hu⟩
        rw [List.cons_append] at hu
        obtain ⟨rfl, rfl⟩ := List.cons.inj hu
        exact ⟨rfl, u, rfl⟩

theorem leadsWith_self [BEq α] [LawfulBEq α] (l : List α) : leadsWith l l = true :=
  (leadsWith_iff l l).mpr ⟨[], (List.append_nil l).symm⟩

theorem existsPath_append (fs gs : List (List (List Char) × Bool)) (p : List (List Char)) :
    existsPath (fs ++ gs) p = (existsPath fs p || existsPath gs p) := by
  unfold existsPath
  exact List.any_append

theorem existsPath_rmtree_under (fs : List (List (List Char) × Bool))
    (p q : List (List Char)) (h : leadsWith p q = true) :
    existsPath (rmtree fs p) q = false := by
  unfold existsPath rmtree
  rw [List.any_eq_false]
  intro e he
  rcases List.mem_filter.mp he with ⟨_, hkeep⟩
  intro habs
  have : e.1 = q := by simpa using habs
  rw [this] at hkeep
  rw [h] at hkeep
  simp at hkeep

theorem mkdirFS_free {fs : List (List (List Char) × Bool)} {p : List (List Char)}
    (h : existsPath fs p = false) : mkdirFS fs p = some (fs ++ [(p, true)]) := by
  unfold mkdirFS
  rw [h]
  rfl

theorem mkdirFS_elim {fs g : List (List (List Char) × Bool)} {p : List (List Char)}
    (h : mkdirFS fs p = some g) :
    existsPath fs p = false ∧ g = fs ++ [(p, true)] := by
  unfold mkdirFS at h
  by_cases hc : existsPath fs p = true
  · rw [if_pos hc] at h
    exact absurd h (by simp)
  · have hc' : existsPath fs p = false := by simpa using hc
    rw [if_neg hc] at h
    exact ⟨hc', (Option.some.inj h).symm⟩

theorem setupWorkspace_elim {fs : List (List (List Char) × Bool)}
    {g : List (List (List Char) × Bool)} {b : Bool}
    (h : setupWorkspace fs = some (g, b)) :
    b = existsPath fs workspacePath ∧
    g = (if existsPath fs workspacePath then rmtree fs workspacePath else fs)
        ++ [(workspacePath, true)] ++ [(dataPath, true)] := by
  unfold setupWorkspace at h
  rw [Option.bind_eq_some] at h
  obtain ⟨fs2, heq, h2⟩ := h
  rw [Option.map_eq_some'] at h2
  obtain ⟨fs3, heq2, h3⟩ := h2
  obtain ⟨h31, h32⟩ := Prod.mk.inj h3
  obtain ⟨_, rfl⟩ := mkdirFS_elim heq
  obtain ⟨_, rfl⟩ := mkdirFS_elim heq2
  exact ⟨h32.symm, h31.symm⟩

/-- C10: the workspace setup is total over the presence of the workspace
root (the removal runs only under the existence check): on any filesystem
where the data subdirectory does not exist without its parent, setup
succeeds, and the removal branch ran exactly when the workspace root
existed. -/
theorem setupWorkspace_total (fs : List (List (List Char) × Bool))
    (hparent : existsPath fs workspacePath = false → existsPath fs dataPath = false) :
    (∃ r, setupWorkspace fs = some r) ∧
    (∀ r, setupWorkspace fs = some r → r.2 = existsPath fs workspacePath) := by
  constructor
  · cases hex : existsPath fs workspacePath with
    | true =>
      have h1 : existsPath (rmtree fs workspacePath) workspacePath = false :=
        existsPath_rmtree_under fs _ _ (leadsWith_self _)
      have h2 : existsPath (rmtree fs workspacePath ++ [(workspacePath, true)])
          dataPath = false := by
        rw [existsPath_append]
        rw [existsPath_rmtree_under fs _ _ (by decide)]
        decide
      refine ⟨(rmtree fs workspacePath ++ [(workspacePath, true)] ++ [(dataPath, true)],
        true), ?_⟩
      unfold setupWorkspace
      rw [hex]
      rw [if_pos rfl]
      rw [mkdirFS_free h1, Option.some_bind, mkdirFS_free h2, Option.map_some']
    | false =>
      have h2 : existsPath (fs ++ [(workspacePath, true)]) dataPath = false := by
        rw [existsPath_append, hparent hex]
        decide
      refine ⟨(fs ++ [(workspacePath, true)] ++ [(dataPath, true)], false), ?_⟩
      unfold setupWorkspace
      rw [hex]
      rw [if_neg (by simp)]
      rw [mkdirFS_free hex, Option.some_bind, mkdirFS_free h2, Option.map_some']
  · intro r hr
    obtain ⟨hb, _⟩ := @setupWorkspace_elim fs r.1 r.2 (by rw [← hr])
    exact hb

/-- Everything under the workspace root after a run of the setup, as a
filter over the resulting filesystem. -/
def underWorkspace (fs : List (List (List Char) × Bool)) :
    List (List (List Char) × Bool) :=
  fs.filter (fun e => leadsWith workspacePath e.1)

/-- Entries strictly below the data subdirectory. -/
def strictlyUnderData (fs : List (List (List Char) × Bool)) :
    List (List (List Char) × Bool) :=
  fs.filter (fun e => leadsWith dataPath e.1 && !(e.1 == dataPath))

/-- C5: running the workspace setup twice in succession, from any starting
state, leaves under the workspace root exactly the (fresh) workspace
directory and one data subdirectory, with nothing below the data directory
and nothing else surviving from the first run. -/
theorem setupWorkspace_twice (fs g1 g2 : List (List (List Char) × Bool))
    (b1 b2 : Bool)
    (h1 : setupWorkspace fs = some (g1, b1))
    (h2 : setupWorkspace g1 = some (g2, b2)) :
    underWorkspace g2 = [(workspacePath, true), (dataPath, true)] ∧
    strictlyUnderData g2 = [] := by
  obtain ⟨_, hg1⟩ := setupWorkspace_elim h1
  obtain ⟨_, hg2⟩ := setupWorkspace_elim h2
  have hex1 : existsPath g1 workspacePath = true := by
    rw [hg1, existsPath_append, existsPath_append]
    have : existsPath [(workspacePath, true)] workspacePath = true := by decide
    rw [this]
    simp
  rw [hex1, if_pos rfl] at hg2
  subst hg2
  constructor
  · unfold underWorkspace
    rw [List.filter_append, List.filter_append]
    have hB : (rmtree g1 workspacePath).filter
        (fun e => leadsWith workspacePath e.1) = [] := by
      unfold rmtree
      rw [List.filter_filter]
      rw [List.filter_eq_nil_iff]
      intro a _
      simp
    rw [hB]
    rfl
  · unfold strictlyUnderData
    rw [List.filter_append, List.filter_append]
    have hB : (rmtree g1 workspacePath).filter
        (fun e => leadsWith dataPath e.1 && !(e.1 == dataPath)) = [] := by
      unfold rmtree
      rw [List.filter_filter]
      rw [List.filter_eq_nil_iff]
      intro a _
      intro habs
      simp only [Bool.and_eq_true, Bool.not_eq_true'] at habs
      obtain ⟨⟨hdata, _⟩, hnows⟩ := habs
      obtain ⟨u, hu⟩ := (leadsWith_iff dataPath a.1).mp hdata
      have : leadsWith workspacePath a.1 = true := by
        rw [(leadsWith_iff workspacePath a.1)]
        exact ⟨("data").toList :: u, by rw [hu]; rfl⟩
      rw [this] at hnows
      simp at hnows
    rw [hB]
    rfl

theorem setupWorkspace_total_witness :
    (∃ r, setupWorkspace [] = some r) ∧
    (∀ r, setupWorkspace [] = some r → r.2 = existsPath [] workspacePath) :=
  setupWorkspace_total [] (by decide)

theorem setupWorkspace_twice_witness :
    underWorkspace [(workspacePath, true), (dataPath, true)]
      = [(workspacePath, true), (dataPath, true)] ∧
    strictlyUnderData [(workspacePath, true), (dataPath, true)] = [] :=
  setupWorkspace_twice [] [(workspacePath, true), (dataPath, true)]
    [(workspacePath, true), (dataPath, true)] false true (by decide) (by decide)

/-! ### The delimited training file

Modelled from the spec: the extraction step materializes the query result as
a tabular in-memory structure (column names and rows of rendered cell
values) and writes it with `df.to_csv(TRAIN_DATA_FILE, index=False)` — a
header row of column names followed by comma-separated values, one record
per line.  With `index = true` pandas would prepend a row-index column
(an empty header cell and the row position); `index = false` does not.
-/

structure DataFrame where
  cols : List (List Char)
  rows : List (List (List Char))

/-- The lines of `df.to_csv(..., index=index)`. -/
def toCsvLines (index : Bool) (df : DataFrame) : List (List Char) :=
  if index then
    joinCh ',' ([] :: df.cols)
      :: (df.rows.enum.map fun r => joinCh ',' (decRender r.1 :: r.2))
  else
    joinCh ',' df.cols :: df.rows.map (joinCh ',')

/-- C9: written with `index = false`, the training file's header row is
exactly the fifteen selected column names with no row-index column
prepended, and every record line has exactly fifteen comma-separated
values. -/
theorem to_csv_shape (df : DataFrame)
    (hcols : df.cols = censusColumns)
    (hrows : ∀ r ∈ df.rows, r.length = 15 ∧ ∀ cell ∈ r, ∀ x ∈ cell, x ≠ ',') :
    toCsvLines false df = joinCh ',' censusColumns :: df.rows.map (joinCh ',') ∧
    splitCh ',' (joinCh ',' censusColumns) = censusColumns ∧
    ∀ l ∈ (toCsvLines false df).tail, (splitCh ',' l).length = 15 := by
  refine ⟨?_, by decide, ?_⟩
  · show joinCh ',' df.cols :: df.rows.map (joinCh ',') = _
    rw [hcols]
  · intro l hl
    have hl' : l ∈ df.rows.map (joinCh ',') := hl
    obtain ⟨r, hr, rfl⟩ := List.mem_map.mp hl'
    obtain ⟨hlen, hcells⟩ := hrows r hr
    have hne : r ≠ [] := by
      intro hnil
      rw [hnil] at hlen
      simp at hlen
    rw [splitCh_joinCh ',' r hne hcells]
    exact hlen

/-- One materialized row of the extraction query (the first row shown by the
notebook). -/
def sampleDf : DataFrame :=
  { cols := censusColumns,
    rows := [[("54").toList, ("?").toList, ("148657").toList, ("Preschool").toList,
      ("1").toList, ("Married-civ-spouse").toList, ("?").toList, ("Wife").toList,
      ("White").toList, ("Female").toList, ("0").toList, ("0").toList,
      ("40").toList, ("Mexico").toList, ("0").toList]] }

theorem to_csv_shape_witness :
    toCsvLines false sampleDf
      = joinCh ',' censusColumns :: sampleDf.rows.map (joinCh ',') ∧
    splitCh ',' (joinCh ',' censusColumns) = censusColumns ∧
    ∀ l ∈ (toCsvLines false sampleDf).tail, (splitCh ',' l).length = 15 :=
  to_csv_shape sampleDf rfl (by decide)

end DataAnalysis
